import Mathlib

/-!
Shallow embedding of the riclib/hnswindex core (index coordinator, chunker,
embedder client, ANN index wrapper and the bbolt-backed storage schema),
together with proofs settling the frozen claims about the specification.

External collaborators (tiktoken encoder, the coder/hnsw graph library
internals, the Ollama HTTP service, bbolt file I/O) are modelled at their
interfaces: encoders and embedders are function parameters, buckets are
key-sorted association lists (bbolt iterates in byte order), and the HNSW
graph is its key-to-vector association.  Vector scalars (float32 in Go) are
an abstract type parameter: the modelled code paths never inspect scalar
values, only vector lengths.
-/

namespace HnswIndex

/-! ### SHA-256 (Go crypto/sha256), executable over byte lists -/

/-- Truncate to a 32-bit word. -/
def w32 (n : Nat) : Nat := n % 4294967296

/-- 32-bit rotate right. -/
def rotr (n x : Nat) : Nat :=
  w32 ((x >>> n) ||| (x <<< (32 - n)))

/-- SHA-256 round constants (decimal). -/
def shaK : List Nat :=
  [1116352408, 1899447441, 3049323471, 3921009573, 961987163,
   1508970993, 2453635748, 2870763221, 3624381080, 310598401,
   607225278, 1426881987, 1925078388, 2162078206, 2614888103,
   3248222580, 3835390401, 4022224774, 264347078, 604807628,
   770255983, 1249150122, 1555081692, 1996064986, 2554220882,
   2821834349, 2952996808, 3210313671, 3336571891, 3584528711,
   113926993, 338241895, 666307205, 773529912, 1294757372,
   1396182291, 1695183700, 1986661051, 2177026350, 2456956037,
   2730485921, 2820302411, 3259730800, 3345764771, 3516065817,
   3600352804, 4094571909, 275423344, 430227734, 506948616,
   659060556, 883997877, 958139571, 1322822218, 1537002063,
   1747873779, 1955562222, 2024104815, 2227730452, 2361852424,
   2428436474, 2756734187, 3204031479, 3329325298]

/-- Initial SHA-256 hash state (decimal). -/
def shaH0 : List Nat :=
  [1779033703, 3144134277, 1013904242, 2773480762,
   1359893119, 2600822924, 528734635, 1541459225]

/-- Split a 64-byte block into sixteen big-endian 32-bit words. -/
def blockWords (block : List Nat) : List Nat :=
  (List.range 16).map fun i =>
    match (block.drop (4 * i)).take 4 with
    | [a, b, c, d] => ((a <<< 24) + (b <<< 16) + (c <<< 8) + d)
    | _ => 0

/-- Extend the sixteen message words to the 64-entry schedule. -/
def extendSchedule : Nat → Array Nat → Array Nat
  | 0, w => w
  | k + 1, w =>
    let i := w.size
    let w15 := w.getD (i - 15) 0
    let w2 := w.getD (i - 2) 0
    let s0 := (rotr 7 w15) ^^^ (rotr 18 w15) ^^^ (w15 >>> 3)
    let s1 := (rotr 17 w2) ^^^ (rotr 19 w2) ^^^ (w2 >>> 10)
    extendSchedule k (w.push (w32 (w.getD (i - 16) 0 + s0 + w.getD (i - 7) 0 + s1)))

/-- One compression round. -/
def shaRound (st : List Nat) (kw : Nat) : List Nat :=
  match st with
  | [a, b, c, d, e, f, g, h] =>
    let s1 := (rotr 6 e) ^^^ (rotr 11 e) ^^^ (rotr 25 e)
    let ch := (e &&& f) ^^^ ((4294967295 - e) &&& g)
    let t1 := w32 (h + s1 + ch + kw)
    let s0 := (rotr 2 a) ^^^ (rotr 13 a) ^^^ (rotr 22 a)
    let mj := (a &&& b) ^^^ (a &&& c) ^^^ (b &&& c)
    let t2 := w32 (s0 + mj)
    [w32 (t1 + t2), a, b, c, w32 (d + t1), e, f, g]
  | st => st

/-- Compress one 64-byte block into the running hash value. -/
def shaCompress (hv : List Nat) (block : List Nat) : List Nat :=
  let w := extendSchedule 48 (Array.mk (blockWords block))
  let ks := (shaK.zip w.toList).map fun p => w32 (p.1 + p.2)
  let fin := ks.foldl shaRound hv
  (hv.zip fin).map fun p => w32 (p.1 + p.2)

/-- SHA-256 padding of a byte message. -/
def shaPad (msg : List Nat) : List Nat :=
  let len := msg.length
  let zeros := (64 + 56 - (len + 1) % 64) % 64
  let bitLen := 8 * len
  msg ++ [0x80] ++ List.replicate zeros 0 ++
    [w32 (bitLen >>> 56) % 256, (bitLen >>> 48) % 256, (bitLen >>> 40) % 256,
     (bitLen >>> 32) % 256, (bitLen >>> 24) % 256, (bitLen >>> 16) % 256,
     (bitLen >>> 8) % 256, bitLen % 256]

/-- SHA-256 digest of a byte message, as 32 bytes. -/
def sha256Bytes (msg : List Nat) : List Nat :=
  let padded := shaPad msg
  let blocks := (List.range (padded.length / 64)).map fun i =>
    (padded.drop (64 * i)).take 64
  let hv := blocks.foldl shaCompress shaH0
  hv.flatMap fun word => [(word >>> 24) % 256, (word >>> 16) % 256, (word >>> 8) % 256, word % 256]

/-- Lowercase hex digit. -/
def hexDigit (n : Nat) : Char :=
  if n < 10 then Char.ofNat (48 + n) else Char.ofNat (87 + n)

/-- Lowercase hex encoding of bytes (Go hex.EncodeToString). -/
def hexEncode (bytes : List Nat) : String :=
  String.mk (bytes.flatMap fun b => [hexDigit (b / 16), hexDigit (b % 16)])

/-- UTF-8 encoding of one character, as bytes. -/
def utf8Char (c : Char) : List Nat :=
  let n := c.toNat
  if n < 0x80 then [n]
  else if n < 0x800 then [0xc0 ||| (n >>> 6), 0x80 ||| (n &&& 0x3f)]
  else if n < 0x10000 then
    [0xe0 ||| (n >>> 12), 0x80 ||| ((n >>> 6) &&& 0x3f), 0x80 ||| (n &&& 0x3f)]
  else
    [0xf0 ||| (n >>> 18), 0x80 ||| ((n >>> 12) &&& 0x3f),
     0x80 ||| ((n >>> 6) &&& 0x3f), 0x80 ||| (n &&& 0x3f)]

/-- UTF-8 bytes of a string (Go []byte(s)). -/
def utf8Bytes (s : String) : List Nat :=
  s.toList.flatMap utf8Char

/-- Full lowercase hex SHA-256 of a string, 64 characters. -/
def sha256Hex (s : String) : String :=
  hexEncode (sha256Bytes (utf8Bytes s))

/-! ### Chunker (internal/chunker/chunker.go)

The tiktoken cl100k_base encoder is an external dependency; the chunker
carries the encode and decode functions as fields.  Token ids are Nat. -/

/-- A text chunk (chunker.Chunk).  Metadata is carried as its canonical
textual rendering, the only view of it the modelled code paths use. -/
structure CChunk where
  id : String
  documentURI : String
  text : String
  position : Nat
  metadata : Option String
deriving DecidableEq, Repr

/-- chunker.Chunker: sizes plus the (external) token encoder pair. -/
structure Chunker where
  chunkSize : Nat
  overlapSize : Nat
  encode : String → List Nat
  decode : List Nat → String

/-- chunker.generateChunkID: first 16 hex characters of
SHA-256(text ++ "_" ++ decimal position). -/
def generateChunkID (text : String) (position : Nat) : String :=
  (sha256Hex (text ++ "_" ++ toString position)).take 16

/-- chunker.NewChunker parameter validation.  Go takes int sizes; a negative
overlap is coerced to 0.  The encoder pair stands for tiktoken. -/
def NewChunker (chunkSize overlapSize : Int) (enc : String → List Nat)
    (dec : List Nat → String) : Except String Chunker :=
  if chunkSize < 50 then .error "chunk size must be at least 50 tokens"
  else if overlapSize ≥ chunkSize then
    .error "overlap cannot be larger than or equal to chunk size"
  else
    .ok ⟨chunkSize.toNat, (max overlapSize 0).toNat, enc, dec⟩

/-- The chunking loop of Chunker.Chunk (for i := 0; i < len(tokens); i += stride),
written with fuel so that it evaluates by kernel reduction; Chunk supplies
fuel = len(tokens), which suffices whenever stride ≥ 1 (guaranteed by the
constructor validation; with stride = 0 the Go loop would not terminate). -/
def chunkLoop (c : Chunker) (tokens : List Nat) : Nat → Nat → Nat → List CChunk
  | 0, _, _ => []
  | fuel + 1, i, position =>
    if i < tokens.length then
      let e := min (i + c.chunkSize) tokens.length
      let chunkText := c.decode ((tokens.drop i).take c.chunkSize)
      let ck : CChunk := ⟨generateChunkID chunkText position, "", chunkText, position, none⟩
      if e = tokens.length then [ck]
      else ck :: chunkLoop c tokens fuel (i + (c.chunkSize - c.overlapSize)) (position + 1)
    else []

/-- Chunker.Chunk. -/
def Chunker.Chunk (c : Chunker) (text : String) : List CChunk :=
  if text = "" then []
  else
    let tokens := c.encode text
    if tokens.length ≤ c.chunkSize then
      [⟨generateChunkID text 0, "", text, 0, none⟩]
    else
      chunkLoop c tokens tokens.length 0 0

/-- Chunker.ChunkWithMetadata. -/
def Chunker.ChunkWithMetadata (c : Chunker) (text : String)
    (metadata : Option String) : List CChunk :=
  (c.Chunk text).map fun ck => { ck with metadata := metadata }

/-- Chunker.ChunkDocument: sets the parent URI and prefixes the chunk id
with the document URI ("%s_%s"). -/
def Chunker.ChunkDocument (c : Chunker) (documentURI text : String) : List CChunk :=
  (c.Chunk text).map fun ck =>
    { ck with documentURI := documentURI, id := documentURI ++ "_" ++ ck.id }

/-- Chunker.CountTokens. -/
def Chunker.CountTokens (c : Chunker) (text : String) : Nat :=
  if text = "" then 0 else (c.encode text).length

/-! ### Embedder client (OllamaEmbedder, src/unnamed/part_003)

HTTP transport is external; GenerateEmbedding is modelled from the point
where a decoded 200 response body is in hand (the embeddings list), which is
where all of its dimension bookkeeping lives. -/

/-- getDimensionForModel: known model hints. -/
def getDimensionForModel (model : String) : Nat :=
  if model = "nomic-embed-text" then 768
  else if model = "nomic-embed-text-v1" then 768
  else if model = "nomic-embed-text-v1.5" then 768
  else if model = "mxbai-embed-large" then 1024
  else if model = "all-minilm" then 384
  else 0

/-- OllamaEmbedder state: the cached dimension (0 = unknown). -/
structure OllamaEmbedder where
  baseURL : String
  model : String
  dimension : Nat
deriving DecidableEq, Repr

/-- NewOllamaEmbedder: validation and dimension pre-population from the
model hint.  (Go also parses the URL; url.Parse accepts any of the strings
used here, so that failure path is not modelled.) -/
def NewOllamaEmbedder (ollamaURL model : String) : Except String OllamaEmbedder :=
  if ollamaURL = "" then .error "Ollama URL cannot be empty"
  else if model = "" then .error "model cannot be empty"
  else .ok ⟨ollamaURL, model, getDimensionForModel model⟩

/-- The tail of OllamaEmbedder.GenerateEmbedding after a decoded 200
response: reject an empty embeddings list (or empty first vector), take
embeddings[0], and record its length as the dimension only if the cached
dimension was 0. -/
def GenerateEmbeddingResp {α : Type} (o : OllamaEmbedder)
    (respEmbeddings : List (List α)) : Except String (List α × OllamaEmbedder) :=
  match respEmbeddings with
  | [] => .error "no embedding returned from Ollama"
  | embedding :: _ =>
    if embedding.length = 0 then .error "no embedding returned from Ollama"
    else
      .ok (embedding,
        { o with dimension := if o.dimension = 0 then embedding.length else o.dimension })

/-- OllamaEmbedder.Dimension. -/
def OllamaEmbedder.Dimension (o : OllamaEmbedder) : Nat := o.dimension

/-! ### ANN index wrapper (internal/indexer/indexer.go)

The coder/hnsw graph is external; what the wrapper owns is the association
of 64-bit vector ids to vectors, the dimension check, and the dirty flag.
The graph is modelled as that association (node list in insertion order). -/

/-- HNSWIndex wrapper state. -/
structure HNSWIndex (α : Type) where
  dimension : Nat
  nodes : List (Nat × List α)
  isModified : Bool
deriving DecidableEq, Repr

/-- The dimension-mismatch message of HNSWIndex.Add. -/
def addDimMsg (vlen dim : Nat) : String :=
  "vector dimension " ++ toString vlen ++ " does not match index dimension " ++ toString dim

/-- The per-element dimension-mismatch message of HNSWIndex.AddBatch. -/
def batchDimMsg (i vlen dim : Nat) : String :=
  "vector " ++ toString i ++ " dimension " ++ toString vlen ++
    " does not match index dimension " ++ toString dim

/-- HNSWIndex.Add: returns the error (state unchanged) or the new state. -/
def HNSWIndex.Add {α : Type} (h : HNSWIndex α) (vector : List α) (id : Nat) :
    Option String × HNSWIndex α :=
  if vector.length ≠ h.dimension then (some (addDimMsg vector.length h.dimension), h)
  else (none, { h with nodes := h.nodes ++ [(id, vector)], isModified := true })

/-- The node-building loop of HNSWIndex.AddBatch: every element is
dimension-checked (in order, with its index) before any node is built for
insertion; the first mismatch aborts with its message. -/
def addBatchNodes {α : Type} (dim : Nat) :
    Nat → List (List α × Nat) → Except String (List (Nat × List α))
  | _, [] => .ok []
  | i, (vector, id) :: rest =>
    if vector.length ≠ dim then .error (batchDimMsg i vector.length dim)
    else (addBatchNodes dim (i + 1) rest).map fun ns => (id, vector) :: ns

/-- HNSWIndex.AddBatch: length check, then per-element validation building
the node list, and only then the bulk graph insertion. -/
def HNSWIndex.AddBatch {α : Type} (h : HNSWIndex α) (vectors : List (List α))
    (ids : List Nat) : Option String × HNSWIndex α :=
  if vectors.length ≠ ids.length then (some "vectors and ids must have the same length", h)
  else
    match addBatchNodes h.dimension 0 (vectors.zip ids) with
    | .error e => (some e, h)
    | .ok ns => (none, { h with nodes := h.nodes ++ ns, isModified := true })

/-- HNSWIndex.Delete: removes the vector if present, no error either way. -/
def HNSWIndex.Delete {α : Type} (h : HNSWIndex α) (id : Nat) : HNSWIndex α :=
  { h with nodes := h.nodes.filter fun n => n.1 ≠ id, isModified := true }

/-- HNSWIndex.Size. -/
def HNSWIndex.Size {α : Type} (h : HNSWIndex α) : Nat := h.nodes.length

/-- HNSWIndex.Clear: fresh graph under the same configuration. -/
def HNSWIndex.Clear {α : Type} (h : HNSWIndex α) : HNSWIndex α :=
  { h with nodes := [], isModified := true }

/-- HNSWIndex.Save: graph export to the backing path (file I/O abstracted);
clears the dirty flag. -/
def HNSWIndex.Save {α : Type} (h : HNSWIndex α) : HNSWIndex α :=
  { h with isModified := false }

/-! ### Storage (internal/storage/storage.go)

A bbolt bucket is a byte-ordered key/value map; modelled as an association
list kept sorted by key (string order coincides with byte order for the
keys used here).  Values are stored directly (the JSON serialization
round-trips).  The model covers operations against an existing index, so
the five per-index buckets are present and the "index not found" branches,
which fire only when a bucket is missing, are unreachable. -/

/-- Lexicographic order on byte sequences (bytes.Compare). -/
def bytesLt : List Nat → List Nat → Bool
  | [], [] => false
  | [], _ :: _ => true
  | _ :: _, [] => false
  | a :: as, b :: bs => if a < b then true else if b < a then false else bytesLt as bs

/-- bbolt key order: byte order on the UTF-8 encoding. -/
def keyLt (a b : String) : Bool := bytesLt (utf8Bytes a) (utf8Bytes b)

/-- bucket.Put: insert or replace, keeping keys in byte order. -/
def bput {β : Type} : List (String × β) → String → β → List (String × β)
  | [], k, v => [(k, v)]
  | (k', v') :: t, k, v =>
    if k = k' then (k, v) :: t
    else if keyLt k k' then (k, v) :: (k', v') :: t
    else (k', v') :: bput t k v

/-- bucket.Get: some value or none. -/
def bget {β : Type} : List (String × β) → String → Option β
  | [], _ => none
  | (k', v') :: t, k => if k = k' then some v' else bget t k

/-- bucket.Delete: idempotent removal. -/
def bdel {β : Type} : List (String × β) → String → List (String × β)
  | [], _ => []
  | (k', v') :: t, k => if k = k' then t else (k', v') :: bdel t k

/-- storage.Document (has the content hash, unlike the public Document). -/
structure SDocument where
  uri : String
  title : String
  content : String
  hash : String
  metadata : Option String
deriving DecidableEq, Repr

/-- storage.Chunk. -/
structure SChunk (α : Type) where
  id : String
  hnswId : Nat
  documentURI : String
  text : String
  embedding : List α
  position : Nat
  metadata : Option String
deriving DecidableEq, Repr

/-- storage.IndexMetadata.  NextHNSWId is a uint64. -/
structure IndexMetadata where
  nextHNSWId : Nat
  documentCount : Nat
  chunkCount : Nat
  lastUpdated : String
deriving DecidableEq, Repr

/-- The five per-index buckets of one index (documents, chunks, doc_chunks,
hashes, metadata; the metadata bucket holds one value at key "metadata"). -/
structure Stor (α : Type) where
  documents : List (String × SDocument)
  chunks : List (String × SChunk α)
  docChunks : List (String × List String)
  hashes : List (String × String)
  metadata : Option IndexMetadata
deriving DecidableEq, Repr

/-- Storage.CreateIndex metadata initialization (next_vector_id = 1). -/
def emptyStor (α : Type) : Stor α :=
  ⟨[], [], [], [], some ⟨1, 0, 0, ""⟩⟩

/-- Storage.StoreDocument: write the document record, and the hash entry
when the hash is non-empty, in one transaction. -/
def StoreDocument {α : Type} (s : Stor α) (doc : SDocument) : Stor α :=
  let s1 := { s with documents := bput s.documents doc.uri doc }
  if doc.hash ≠ "" then { s1 with hashes := bput s1.hashes doc.uri doc.hash } else s1

/-- Storage.GetDocument. -/
def GetDocument {α : Type} (s : Stor α) (uri : String) : Except String SDocument :=
  match bget s.documents uri with
  | none => .error ("document " ++ uri ++ " not found")
  | some d => .ok d

/-- Storage.DeleteDocument: removes the document record, the hash entry and
the document-to-chunk mapping (not the chunk records themselves). -/
def SDeleteDocument {α : Type} (s : Stor α) (uri : String) : Stor α :=
  { s with
    documents := bdel s.documents uri
    hashes := bdel s.hashes uri
    docChunks := bdel s.docChunks uri }

/-- Storage.StoreChunk: write the chunk record and append the chunk id to
the document-to-chunk mapping if not already present. -/
def StoreChunk {α : Type} (s : Stor α) (chunk : SChunk α) : Stor α :=
  let s1 := { s with chunks := bput s.chunks chunk.id chunk }
  if chunk.documentURI = "" then s1
  else
    let chunkIDs := (bget s1.docChunks chunk.documentURI).getD []
    let chunkIDs' := if chunk.id ∈ chunkIDs then chunkIDs else chunkIDs ++ [chunk.id]
    { s1 with docChunks := bput s1.docChunks chunk.documentURI chunkIDs' }

/-- Insertion sort by ascending position; models the in-place exchange sort
at the end of GetChunksByDocument (identical output on the pairwise-distinct
positions that occur within one document). -/
def insertByPos {α : Type} (c : SChunk α) : List (SChunk α) → List (SChunk α)
  | [] => [c]
  | d :: t => if c.position < d.position then c :: d :: t else d :: insertByPos c t

/-- Sort chunks by ascending position. -/
def sortByPos {α : Type} (l : List (SChunk α)) : List (SChunk α) :=
  l.foldr insertByPos []

/-- Storage.GetChunksByDocument: resolve the mapping, fetch each chunk
record that exists, and sort by position. -/
def GetChunksByDocument {α : Type} (s : Stor α) (documentURI : String) : List (SChunk α) :=
  let chunkIDs := (bget s.docChunks documentURI).getD []
  sortByPos (chunkIDs.filterMap fun id => bget s.chunks id)

/-- Storage.DeleteChunksByDocument: a no-op when the mapping entry is
absent; otherwise deletes the listed chunk records and the mapping. -/
def DeleteChunksByDocument {α : Type} (s : Stor α) (documentURI : String) : Stor α :=
  match bget s.docChunks documentURI with
  | none => s
  | some chunkIDs =>
    { s with
      chunks := chunkIDs.foldl (fun b id => bdel b id) s.chunks
      docChunks := bdel s.docChunks documentURI }

/-- Storage.GetDocumentHash. -/
def GetDocumentHash {α : Type} (s : Stor α) (uri : String) : Except String String :=
  match bget s.hashes uri with
  | none => .error ("hash for document " ++ uri ++ " not found")
  | some h => .ok h

/-- Storage.GetIndexMetadata. -/
def GetIndexMetadata {α : Type} (s : Stor α) : Except String IndexMetadata :=
  match s.metadata with
  | none => .error "metadata not found"
  | some m => .ok m

/-- Storage.SetIndexMetadata. -/
def SetIndexMetadata {α : Type} (s : Stor α) (m : IndexMetadata) : Stor α :=
  { s with metadata := some m }

/-- Storage.GetNextHNSWId: read the counter, store counter + 1 (uint64
arithmetic), return the value prior to increment. -/
def GetNextHNSWId {α : Type} (s : Stor α) : Except String (Nat × Stor α) :=
  match s.metadata with
  | none => .error "metadata not found"
  | some m =>
    .ok (m.nextHNSWId,
      { s with metadata := some { m with nextHNSWId := (m.nextHNSWId + 1) % 18446744073709551616 } })

/-- Storage.ListDocuments: all document URIs in bucket (byte) order. -/
def ListDocuments {α : Type} (s : Stor α) : List String :=
  s.documents.map fun p => p.1

/-! ### Index coordinator (indexImpl, src/unnamed/part_008)

One coordinator per index.  Its state is the storage buckets of that index
plus its HNSW wrapper.  The embedder is passed as the function the
coordinator calls (GenerateEmbeddings over the batch of chunk texts);
timestamps (Go time.Now().Format(RFC3339)) are passed in as `now`. -/

/-- The public Document submitted by clients (no hash field). -/
structure Document where
  uri : String
  title : String
  content : String
  metadata : Option String
deriving DecidableEq, Repr

/-- BatchResult. -/
structure BatchResult where
  totalDocuments : Nat
  newDocuments : Nat
  updatedDocuments : Nat
  unchangedDocuments : Nat
  processedChunks : Nat
  failedURIs : List (String × String)
deriving DecidableEq, Repr

/-- SearchResult (scores, float64 in Go, are an abstract type). -/
structure SearchResult (α β : Type) where
  document : Document
  score : β
  chunkId : String
  chunkText : String
  indexName : String
deriving DecidableEq, Repr

/-- Coordinator state: the storage buckets of this index and its wrapper. -/
structure IdxState (α : Type) where
  stor : Stor α
  hnsw : HNSWIndex α
deriving DecidableEq, Repr

/-- computeDocumentHash: SHA-256 over the title bytes, the content bytes,
and, when metadata is present, the bytes of its textual rendering (the
metadata field carries that rendering). -/
def computeDocumentHash (doc : Document) : String :=
  let base := utf8Bytes doc.title ++ utf8Bytes doc.content
  hexEncode (sha256Bytes (match doc.metadata with
    | none => base
    | some m => base ++ utf8Bytes m))

/-- The chunk-storing loop of indexImpl.processChunks: for each chunk,
allocate a vector id, store the chunk record, then insert the vector into
the HNSW index; the first failure stops the loop with the partial state. -/
def processChunksLoop {α : Type} (docURI : String) (metadata : Option String)
    (embeddings : List (List α)) :
    Nat → List CChunk → IdxState α → Option String × IdxState α
  | _, [], st => (none, st)
  | idx, chunk :: rest, st =>
    match GetNextHNSWId st.stor with
    | .error e => (some ("failed to get HNSW ID: " ++ e), st)
    | .ok (hnswID, s1) =>
      let emb := embeddings.getD idx []
      let sc : SChunk α :=
        ⟨chunk.id, hnswID, docURI, chunk.text, emb, chunk.position, metadata⟩
      let s2 := StoreChunk s1 sc
      match HNSWIndex.Add st.hnsw emb hnswID with
      | (some e, h') => (some ("failed to add to HNSW index: " ++ e), ⟨s2, h'⟩)
      | (none, h') => processChunksLoop docURI metadata embeddings (idx + 1) rest ⟨s2, h'⟩

/-- indexImpl.processChunks: one batch embedding request for all chunk
texts, then the storing loop. -/
def processChunks {α : Type} (emb : List String → Except String (List (List α)))
    (docURI : String) (chunks : List CChunk) (metadata : Option String)
    (st : IdxState α) : Option String × IdxState α :=
  match emb (chunks.map fun c => c.text) with
  | .error e => (some ("failed to generate embeddings: " ++ e), st)
  | .ok embeddings => processChunksLoop docURI metadata embeddings 0 chunks st

/-- indexImpl.processDocument: store the document record together with its
freshly computed hash, best-effort delete of existing chunks, chunk the
content, then embed and store the chunks. -/
def processDocument {α : Type} (chk : Chunker)
    (emb : List String → Except String (List (List α))) (doc : Document)
    (st : IdxState α) : Option String × IdxState α :=
  let hash := computeDocumentHash doc
  let s1 := StoreDocument st.stor ⟨doc.uri, doc.title, doc.content, hash, doc.metadata⟩
  let s2 := DeleteChunksByDocument s1 doc.uri
  let chunks := chk.ChunkDocument doc.uri doc.content
  match processChunks emb doc.uri chunks doc.metadata ⟨s2, st.hnsw⟩ with
  | (some e, st') => (some ("failed to process chunks: " ++ e), st')
  | (none, st') => (none, st')

/-- The triage outcome of Phase 1 of indexImpl.AddDocumentBatch. -/
structure Triage where
  newCount : Nat
  updatedCount : Nat
  unchangedCount : Nat
  toProcess : List Document
deriving DecidableEq, Repr

/-- Phase 1 of AddDocumentBatch: per document, compare the stored hash with
the current hash; a missing stored hash classifies the document as new, a
different one as updated, an equal one as unchanged (only new and updated
documents are enqueued, in submission order). -/
def triage {α : Type} (s : Stor α) : List Document → Triage
  | [] => ⟨0, 0, 0, []⟩
  | doc :: rest =>
    let hash := computeDocumentHash doc
    let r := triage s rest
    match GetDocumentHash s doc.uri with
    | .error _ => ⟨r.newCount + 1, r.updatedCount, r.unchangedCount, doc :: r.toProcess⟩
    | .ok existing =>
      if existing ≠ hash then
        ⟨r.newCount, r.updatedCount + 1, r.unchangedCount, doc :: r.toProcess⟩
      else
        ⟨r.newCount, r.updatedCount, r.unchangedCount + 1, r.toProcess⟩

/-- Phase 2 of AddDocumentBatch: process each enqueued document; a failure
is recorded under the document URI and the batch continues; on success the
number of chunks now stored for the URI is added to processed_chunks. -/
def phase2 {α : Type} (chk : Chunker)
    (emb : List String → Except String (List (List α))) :
    List Document → IdxState α → Nat × List (String × String) × IdxState α
  | [], st => (0, [], st)
  | doc :: rest, st =>
    match processDocument chk emb doc st with
    | (some e, st') =>
      let r := phase2 chk emb rest st'
      (r.1, (doc.uri, e) :: r.2.1, r.2.2)
    | (none, st') =>
      let k := (GetChunksByDocument st'.stor doc.uri).length
      let r := phase2 chk emb rest st'
      (k + r.1, r.2.1, r.2.2)

/-- The metadata read-modify-write at the end of AddDocumentBatch: read the
metadata (skip the update when the read fails) and write it back with
last_updated, document_count and chunk_count replaced. -/
def finalizeMetadata {α : Type} (now : String) (docCount chunkCount : Nat)
    (st : IdxState α) : IdxState α :=
  match GetIndexMetadata st.stor with
  | .error _ => st
  | .ok m =>
    ⟨SetIndexMetadata st.stor
      { m with lastUpdated := now, documentCount := docCount, chunkCount := chunkCount },
      st.hnsw⟩

/-- indexImpl.AddDocumentBatch: triage, early return when nothing is to be
processed, Phase 2, autosave of the HNSW graph, and the metadata update
(document_count := new + updated of this batch, chunk_count :=
processed_chunks, last_updated := now), skipped when the metadata read
fails.  Graph export I/O is abstracted as always succeeding. -/
def AddDocumentBatch {α : Type} (chk : Chunker)
    (emb : List String → Except String (List (List α))) (autoSave : Bool)
    (now : String) (docs : List Document) (st : IdxState α) :
    BatchResult × IdxState α :=
  let t := triage st.stor docs
  let r0 : BatchResult := ⟨docs.length, t.newCount, t.updatedCount, t.unchangedCount, 0, []⟩
  if t.toProcess.isEmpty then (r0, st)
  else
    let p := phase2 chk emb t.toProcess st
    let st1 := p.2.2
    let st2 := if autoSave then ⟨st1.stor, st1.hnsw.Save⟩ else st1
    ({ r0 with processedChunks := p.1, failedURIs := p.2.1 },
      finalizeMetadata now (t.newCount + t.updatedCount) p.1 st2)

/-- The scan of indexImpl.findChunkAndDocument over the listed document
URIs: the first chunk whose vector id matches wins; a failing document
lookup aborts the scan with no result. -/
def findLoop {α : Type} (s : Stor α) (hnswID : Nat) :
    List String → Option (SChunk α × SDocument)
  | [] => none
  | uri :: rest =>
    match (GetChunksByDocument s uri).find? (fun c => c.hnswId = hnswID) with
    | some c =>
      match GetDocument s uri with
      | .error _ => none
      | .ok d => some (c, d)
    | none => findLoop s hnswID rest

/-- indexImpl.findChunkAndDocument: scan all chunks of all documents for
the vector id. -/
def findChunkAndDocument {α : Type} (s : Stor α) (hnswID : Nat) :
    Option (SChunk α × SDocument) :=
  findLoop s hnswID (ListDocuments s)

/-- The result-conversion loop of indexImpl.Search: neighbors whose vector
id does not resolve to a chunk and parent document are skipped. -/
def resolveResults {α β : Type} (indexName : String) (s : Stor α) :
    List (Nat × β) → List (SearchResult α β)
  | [] => []
  | (id, score) :: rest =>
    match findChunkAndDocument s id with
    | none => resolveResults indexName s rest
    | some (c, d) =>
      ⟨⟨d.uri, d.title, d.content, d.metadata⟩, score, c.id, c.text, indexName⟩ ::
        resolveResults indexName s rest

/-- indexImpl.Search: embed the query, run the wrapper k-NN search, convert
the neighbor list.  The embedder call and the wrapper search (the external
graph traversal with its dimension and emptiness checks) enter as their
results. -/
def SearchImpl {α β : Type} (indexName : String) (st : IdxState α)
    (embedRes : Except String (List α))
    (annSearch : List α → Except String (List (Nat × β))) :
    Except String (List (SearchResult α β)) :=
  match embedRes with
  | .error e => .error ("failed to generate query embedding: " ++ e)
  | .ok embedding =>
    match annSearch embedding with
    | .error e => .error ("failed to search HNSW index: " ++ e)
    | .ok hnswResults => .ok (resolveResults indexName st.stor hnswResults)

/-- indexImpl.DeleteDocument: fetch the chunks of the URI, delete each
vector from the HNSW index, delete the document record (which also removes
the hash and the doc-to-chunks mapping), call DeleteChunksByDocument, then
autosave. -/
def DeleteDocumentImpl {α : Type} (autoSave : Bool) (st : IdxState α)
    (uri : String) : IdxState α :=
  let chunks := GetChunksByDocument st.stor uri
  let h1 := chunks.foldl (fun h c => h.Delete c.hnswId) st.hnsw
  let s1 := SDeleteDocument st.stor uri
  let s2 := DeleteChunksByDocument s1 uri
  ⟨s2, if autoSave then h1.Save else h1⟩

/-- indexImpl.Clear: clear the HNSW graph, delete every listed document and
its chunks, and reset the metadata to next_vector_id = 1 with zero counts. -/
def ClearImpl {α : Type} (now : String) (st : IdxState α) : IdxState α :=
  let h1 := st.hnsw.Clear
  let uris := ListDocuments st.stor
  let s1 := uris.foldl (fun s uri => DeleteChunksByDocument (SDeleteDocument s uri) uri) st.stor
  ⟨SetIndexMetadata s1 ⟨1, 0, 0, now⟩, h1⟩

/-! ### Basic bucket lemmas -/

theorem bget_bput_self {β : Type} (l : List (String × β)) (k : String) (v : β) :
    bget (bput l k v) k = some v := by
  induction l with
  | nil => simp [bput, bget]
  | cons p t ih =>
    by_cases hk : k = p.1
    · simp [bput, bget, hk]
    · by_cases hlt : keyLt k p.1
      · simp [bput, bget, hk, hlt]
      · simp [bput, bget, hk, hlt, ih]

theorem bget_bput_ne {β : Type} (l : List (String × β)) (k u : String) (v : β)
    (h : u ≠ k) : bget (bput l k v) u = bget l u := by
  induction l with
  | nil => simp [bput, bget, h]
  | cons p t ih =>
    by_cases hk : k = p.1
    · subst hk
      simp [bput, bget, h]
    · by_cases hlt : keyLt k p.1
      · simp [bput, bget, hk, hlt, h]
      · by_cases hu : u = p.1 <;> simp [bput, bget, hk, hlt, hu, ih]

/-! ### Digest shape lemmas: a computed document hash is never empty, so
StoreDocument always writes the hash entry. -/

theorem shaRound_length (st : List Nat) (kw : Nat) : (shaRound st kw).length = st.length := by
  unfold shaRound
  split <;> simp_all

theorem foldl_shaRound_length (ks : List Nat) (st : List Nat) :
    (ks.foldl shaRound st).length = st.length := by
  induction ks generalizing st with
  | nil => rfl
  | cons k t ih => simpa [List.foldl_cons, shaRound_length] using ih (shaRound st k)

theorem shaCompress_length (hv block : List Nat) :
    (shaCompress hv block).length = hv.length := by
  unfold shaCompress
  simp [foldl_shaRound_length]

theorem foldl_shaCompress_length (blocks : List (List Nat)) (hv : List Nat) :
    (blocks.foldl shaCompress hv).length = hv.length := by
  induction blocks generalizing hv with
  | nil => rfl
  | cons b t ih => simpa [List.foldl_cons, shaCompress_length] using ih (shaCompress hv b)

theorem flatMap_words_length (hv : List Nat) :
    (hv.flatMap fun word =>
      [(word >>> 24) % 256, (word >>> 16) % 256, (word >>> 8) % 256, word % 256]).length
      = 4 * hv.length := by
  induction hv with
  | nil => rfl
  | cons w t ih =>
    rw [List.flatMap_cons, List.length_append, ih]
    simp [List.length_cons]
    omega

theorem sha256Bytes_length (msg : List Nat) : (sha256Bytes msg).length = 32 := by
  unfold sha256Bytes
  rw [flatMap_words_length, foldl_shaCompress_length]
  rfl

theorem hexEncode_length (bytes : List Nat) :
    (hexEncode bytes).length = 2 * bytes.length := by
  unfold hexEncode
  induction bytes with
  | nil => rfl
  | cons b t ih =>
    simp only [List.flatMap_cons, String.length] at *
    simp_all
    omega

theorem computeDocumentHash_ne_empty (doc : Document) : computeDocumentHash doc ≠ "" := by
  intro h
  have hlen : (computeDocumentHash doc).length = 64 := by
    unfold computeDocumentHash
    cases doc.metadata <;> simp [hexEncode_length, sha256Bytes_length]
  rw [h] at hlen
  simp at hlen

/-! ### Concrete scenario material shared by witnesses and counterexamples.
The encoder pair makes every character one token (a legitimate instance of
the abstract tokenizer interface); the embedders are instances of the
embedder call the coordinator makes. -/

/-- One token per character. -/
def charTokens (s : String) : List Nat := s.toList.map Char.toNat

/-- Inverse of charTokens. -/
def charDetokens (ts : List Nat) : String := String.mk (ts.map Char.ofNat)

/-- A chunker with the default sizes (512/50) over the character encoder. -/
def ascChunker : Chunker := ⟨512, 50, charTokens, charDetokens⟩

/-- An embedder call that succeeds with length-1 vectors (dimension 1). -/
def okEmbedder : List String → Except String (List (List Unit)) :=
  fun texts => .ok (texts.map fun _ => [()])

/-- An embedder call that fails with a transport error. -/
def failEmbedder : List String → Except String (List (List Unit)) :=
  fun _ => .error "connection refused"

/-- A freshly created index: empty buckets, metadata next_vector_id = 1,
empty dimension-1 graph. -/
def freshState : IdxState Unit := ⟨emptyStor Unit, ⟨1, [], false⟩⟩

/-! ### Claim C8: embedder dimension hints -/

/-- C8 counterexample: with the hinted model nomic-embed-text the cached
dimension is pre-populated to 768; a successful generate call whose
response vector has length 1024 leaves the cached dimension at 768, so
dimension() does not return the observed length — the hint is authoritative
over the observed value, contrary to the claim. -/
theorem c8_counterexample :
    NewOllamaEmbedder "http://localhost:11434" "nomic-embed-text"
      = .ok ⟨"http://localhost:11434", "nomic-embed-text", 768⟩ ∧
    GenerateEmbeddingResp (α := Unit)
        ⟨"http://localhost:11434", "nomic-embed-text", 768⟩
        [[(), ()]]
      = .ok ([(), ()],
          ⟨"http://localhost:11434", "nomic-embed-text", 768⟩) ∧
    ([(), ()] : List Unit).length = 2 ∧
    OllamaEmbedder.Dimension ⟨"http://localhost:11434", "nomic-embed-text", 768⟩ ≠ 2 :=
  ⟨rfl, rfl, rfl, by decide⟩

/-- C8 amended: the constructor pre-populates the cached dimension from the
model hint, and a successful generate call records the observed vector
length only when the cached dimension was previously 0 (unknown); a nonzero
pre-populated dimension persists unchanged. -/
theorem c8_dimension_hint {α : Type} (url model : String) (o : OllamaEmbedder)
    (resp : List (List α)) (embedding : List α) (o' : OllamaEmbedder)
    (hnew : NewOllamaEmbedder url model = .ok o)
    (hgen : GenerateEmbeddingResp o resp = .ok (embedding, o')) :
    o.dimension = getDimensionForModel model ∧
    o'.Dimension = if o.dimension = 0 then embedding.length else o.dimension := by
  constructor
  · unfold NewOllamaEmbedder at hnew
    split at hnew
    · exact absurd hnew (by simp)
    · split at hnew
      · exact absurd hnew (by simp)
      · cases hnew
        rfl
  · unfold GenerateEmbeddingResp at hgen
    split at hgen
    · exact absurd hgen (by simp)
    · split at hgen
      · exact absurd hgen (by simp)
      · rw [Except.ok.injEq, Prod.mk.injEq] at hgen
        obtain ⟨he, ho⟩ := hgen
        subst he
        subst ho
        rfl

/-- C8 witness: the amended theorem applied to the nomic-embed-text hint
and a successful one-element response. -/
theorem c8_witness :
    (⟨"u", "nomic-embed-text", 768⟩ : OllamaEmbedder).dimension
        = getDimensionForModel "nomic-embed-text" ∧
    OllamaEmbedder.Dimension (⟨"u", "nomic-embed-text", 768⟩ : OllamaEmbedder)
        = if (⟨"u", "nomic-embed-text", 768⟩ : OllamaEmbedder).dimension = 0
          then ([()] : List Unit).length
          else (⟨"u", "nomic-embed-text", 768⟩ : OllamaEmbedder).dimension :=
  c8_dimension_hint "u" "nomic-embed-text" _ [[()]] [()] _ rfl rfl

/-! ### Claim C9: AddBatch validates every dimension before inserting -/

theorem addBatchNodes_error {α : Type} (dim : Nat) :
    ∀ (pairs : List (List α × Nat)) (j : Nat),
      (∃ p ∈ pairs, p.1.length ≠ dim) →
      ∃ i vlen, vlen ≠ dim ∧ addBatchNodes dim j pairs = .error (batchDimMsg i vlen dim)
  | [], _, hbad => absurd hbad (by simp)
  | (v, id) :: rest, j, hbad => by
    by_cases hv : v.length ≠ dim
    · exact ⟨j, v.length, hv, by simp [addBatchNodes, hv]⟩
    · have hrest : ∃ p ∈ rest, p.1.length ≠ dim := by
        obtain ⟨p, hp, hpl⟩ := hbad
        rcases List.mem_cons.mp hp with h | h
        · subst h
          exact absurd hpl (by simpa using hv)
        · exact ⟨p, h, hpl⟩
      obtain ⟨i, vlen, hne, herr⟩ := addBatchNodes_error dim rest (j + 1) hrest
      refine ⟨i, vlen, hne, ?_⟩
      simp only [addBatchNodes]
      rw [if_neg hv, herr]
      rfl

/-- C9: when the vectors and ids lists have equal length but some vector
has the wrong dimension, AddBatch returns the per-element dimension error
and leaves the index entirely unchanged (no vector of the batch is
inserted, so the size is unchanged): every per-element check happens while
building the node list, before the single bulk graph insertion. -/
theorem c9_addbatch_atomic {α : Type} (h : HNSWIndex α) (vectors : List (List α))
    (ids : List Nat) (hlen : vectors.length = ids.length)
    (hbad : ∃ v ∈ vectors, v.length ≠ h.dimension) :
    ∃ i vlen, vlen ≠ h.dimension ∧
      HNSWIndex.AddBatch h vectors ids = (some (batchDimMsg i vlen h.dimension), h) := by
  have hzip : ∃ p ∈ vectors.zip ids, p.1.length ≠ h.dimension := by
    obtain ⟨v, hv, hvlen⟩ := hbad
    have hmap : (vectors.zip ids).map Prod.fst = vectors :=
      List.map_fst_zip _ _ (le_of_eq hlen)
    rw [← hmap] at hv
    obtain ⟨p, hp, hpv⟩ := List.mem_map.mp hv
    exact ⟨p, hp, by rw [hpv]; exact hvlen⟩
  obtain ⟨i, vlen, hne, herr⟩ := addBatchNodes_error h.dimension (vectors.zip ids) 0 hzip
  exact ⟨i, vlen, hne, by simp [HNSWIndex.AddBatch, hlen, herr]⟩

/-- C9 witness: a dimension-3 index rejects a batch containing a length-1
vector and is returned unchanged. -/
theorem c9_witness :
    ([[()]] : List (List Unit)).length = ([5] : List Nat).length ∧
    (∃ v ∈ ([[()]] : List (List Unit)), v.length ≠ 3) ∧
    ∃ i vlen, vlen ≠ (⟨3, [], false⟩ : HNSWIndex Unit).dimension ∧
      HNSWIndex.AddBatch (⟨3, [], false⟩ : HNSWIndex Unit) [[()]] [5]
        = (some (batchDimMsg i vlen (⟨3, [], false⟩ : HNSWIndex Unit).dimension),
           ⟨3, [], false⟩) :=
  ⟨rfl, by decide, c9_addbatch_atomic ⟨3, [], false⟩ [[()]] [5] rfl (by decide)⟩

/-! ### Claim C3: monotonicity of the vector-id counter -/

/-- C3 counterexample: on a fresh index the first allocation issues id 1;
clear() resets the stored next-vector-id to 1, so the next allocation
issues 1 again — after a clear the next-vector-id is not strictly greater
than every identifier ever issued (1 is not greater than 1). -/
theorem c3_counterexample :
    GetNextHNSWId (emptyStor Unit)
      = .ok (1, ⟨[], [], [], [], some ⟨2, 0, 0, ""⟩⟩) ∧
    (ClearImpl "t"
        (⟨⟨[], [], [], [], some ⟨2, 0, 0, ""⟩⟩, ⟨0, [], false⟩⟩ : IdxState Unit)).stor.metadata
      = some ⟨1, 0, 0, "t"⟩ ∧
    GetNextHNSWId (⟨[], [], [], [], some ⟨1, 0, 0, "t"⟩⟩ : Stor Unit)
      = .ok (1, ⟨[], [], [], [], some ⟨2, 0, 0, "t"⟩⟩) ∧
    ¬ ((1 : Nat) < 1) :=
  ⟨rfl, rfl, rfl, by decide⟩

/-- C3 amended: between clears the counter is strictly monotonic — two
successive allocations with no clear in between return strictly increasing
identifiers (below the uint64 wrap) — while clear() resets the stored
next-vector-id to 1, so identifiers issued before a clear may be issued
again after it. -/
theorem c3_monotone_between_clears {α : Type} (s s1 s2 : Stor α) (m : IndexMetadata)
    (id1 id2 : Nat) (hm : s.metadata = some m)
    (hwrap : m.nextHNSWId + 1 < 18446744073709551616)
    (h1 : GetNextHNSWId s = .ok (id1, s1))
    (h2 : GetNextHNSWId s1 = .ok (id2, s2)) :
    id1 < id2 ∧
    ∀ (now : String) (st : IdxState α),
      (ClearImpl now st).stor.metadata = some ⟨1, 0, 0, now⟩ := by
  refine ⟨?_, fun now st => rfl⟩
  unfold GetNextHNSWId at h1 h2
  rw [hm] at h1
  rw [Except.ok.injEq, Prod.mk.injEq] at h1
  obtain ⟨hid1, hs1⟩ := h1
  rw [← hs1] at h2
  simp only [Except.ok.injEq, Prod.mk.injEq] at h2
  obtain ⟨hid2, _⟩ := h2
  rw [← hid1, ← hid2, Nat.mod_eq_of_lt hwrap]
  omega

/-- C3 witness: the amended theorem applied to a fresh index. -/
theorem c3_witness :
    (1 : Nat) < 2 ∧
    ∀ (now : String) (st : IdxState Unit),
      (ClearImpl now st).stor.metadata = some ⟨1, 0, 0, now⟩ :=
  c3_monotone_between_clears (emptyStor Unit)
    ⟨[], [], [], [], some ⟨2, 0, 0, ""⟩⟩ ⟨[], [], [], [], some ⟨3, 0, 0, ""⟩⟩
    ⟨1, 0, 0, ""⟩ 1 2 rfl (by decide) rfl rfl

/-! ### Claim C5: the chunk identifier formula -/

/-- The text of the token window starting at offset i. -/
def windowText (c : Chunker) (tokens : List Nat) (i : Nat) : String :=
  c.decode ((tokens.drop i).take c.chunkSize)

/-- The chunk emitted for the window starting at offset i with ordinal pos. -/
def windowChunk (c : Chunker) (tokens : List Nat) (i pos : Nat) : CChunk :=
  ⟨generateChunkID (windowText c tokens i) pos, "", windowText c tokens i, pos, none⟩

/-- Unfolding equation of the chunking loop. -/
theorem chunkLoop_succ (c : Chunker) (tokens : List Nat) (fuel i pos : Nat) :
    chunkLoop c tokens (fuel + 1) i pos =
      if i < tokens.length then
        if (i + c.chunkSize) ⊓ tokens.length = tokens.length then
          [windowChunk c tokens i pos]
        else
          windowChunk c tokens i pos ::
            chunkLoop c tokens fuel (i + (c.chunkSize - c.overlapSize)) (pos + 1)
      else [] := rfl

theorem chunkLoop_id (c : Chunker) (tokens : List Nat) :
    ∀ (fuel i pos : Nat) (ck : CChunk), ck ∈ chunkLoop c tokens fuel i pos →
      ck.id = generateChunkID ck.text ck.position
  | 0, _, _, _, h => absurd h (by simp [chunkLoop])
  | fuel + 1, i, pos, ck, h => by
    rw [chunkLoop_succ] at h
    split at h
    · split at h
      · rw [List.mem_singleton] at h
        subst h
        simp only [windowChunk]
      · rcases List.mem_cons.mp h with h | h
        · subst h
          simp only [windowChunk]
        · exact chunkLoop_id c tokens fuel _ _ ck h
    · exact absurd h (by simp)

/-- Unfolding equation of Chunker.Chunk on nonempty input. -/
theorem Chunk_eq (c : Chunker) (text : String) (h : ¬ text = "") :
    c.Chunk text =
      if (c.encode text).length ≤ c.chunkSize then
        [⟨generateChunkID text 0, "", text, 0, none⟩]
      else chunkLoop c (c.encode text) (c.encode text).length 0 0 := by
  unfold Chunker.Chunk
  rw [if_neg h]

theorem Chunk_id (c : Chunker) (text : String) (ck : CChunk)
    (h : ck ∈ c.Chunk text) : ck.id = generateChunkID ck.text ck.position := by
  by_cases ht : text = ""
  · subst ht
    exact absurd h (by simp [Chunker.Chunk])
  · rw [Chunk_eq c text ht] at h
    split at h
    · rw [List.mem_singleton] at h
      subst h
      dsimp only
    · exact chunkLoop_id c (c.encode text) _ _ _ ck h

/-- C5 amended: every chunk produced by ChunkDocument — which is what batch
ingest stores — carries the identifier documentURI ++ "_" ++ the first 16
hex characters of SHA-256(chunk_text ++ "_" ++ position): the 16-hex hash
is prefixed with the parent document URI. -/
theorem c5_chunk_id_formula (c : Chunker) (documentURI text : String) (ck : CChunk)
    (h : ck ∈ c.ChunkDocument documentURI text) :
    ck.id = documentURI ++ "_"
      ++ (sha256Hex (ck.text ++ "_" ++ toString ck.position)).take 16 := by
  unfold Chunker.ChunkDocument at h
  obtain ⟨ck0, hmem, heq⟩ := List.mem_map.mp h
  have hid := Chunk_id c text ck0 hmem
  subst heq
  simp only [hid]
  rfl

set_option maxRecDepth 40000 in
/-- C5 counterexample: ingesting the document doc://test with content "C"
stores exactly one chunk, whose identifier is the URI-prefixed string and
therefore differs from the 16 hex characters of SHA-256("C" ++ "_" ++ "0")
that the claim prescribes. -/
theorem c5_counterexample :
    ((GetChunksByDocument
        (AddDocumentBatch ascChunker okEmbedder true "t1"
          [⟨"doc://test", "T", "C", none⟩] freshState).2.stor
        "doc://test").map fun ck => (ck.text, ck.position, ck.id))
      = [("C", 0, "doc://test_" ++ (sha256Hex "C_0").take 16)] ∧
    ("doc://test_" ++ (sha256Hex "C_0").take 16) ≠ (sha256Hex "C_0").take 16 := by
  constructor
  · decide
  · intro h
    have hl := congrArg String.length h
    rw [String.length_append] at hl
    have h11 : ("doc://test_" : String).length = 11 := rfl
    omega

set_option maxRecDepth 40000 in
/-- C5 witness for the amended theorem: the single chunk of the ingest
scenario above, checked against the URI-prefixed formula. -/
theorem c5_witness :
    (⟨"doc://test_" ++ (sha256Hex "C_0").take 16, "doc://test", "C", 0, none⟩ : CChunk).id
      = "doc://test" ++ "_"
        ++ (sha256Hex ((⟨"doc://test_" ++ (sha256Hex "C_0").take 16, "doc://test",
              "C", 0, none⟩ : CChunk).text ++ "_"
            ++ toString (⟨"doc://test_" ++ (sha256Hex "C_0").take 16, "doc://test",
              "C", 0, none⟩ : CChunk).position)).take 16 :=
  c5_chunk_id_formula ascChunker "doc://test" "C" _ (by decide)

/-! ### Claim C7: chunker windowing behavior -/

theorem chunkLoop_positions (c : Chunker) (tokens : List Nat) (fuel : Nat) :
    ∀ i pos, (chunkLoop c tokens fuel i pos).map (fun ck => ck.position)
      = List.range' pos (chunkLoop c tokens fuel i pos).length := by
  induction fuel with
  | zero =>
    intro i pos
    simp [chunkLoop]
  | succ fuel ih =>
    intro i pos
    rw [chunkLoop_succ]
    split
    · split
      · simp [windowChunk, List.range']
      · simp only [List.map_cons, List.length_cons, ih, windowChunk, List.range']
    · simp

theorem chunkLoop_get (c : Chunker) (tokens : List Nat) (fuel : Nat) :
    ∀ i pos j, j < (chunkLoop c tokens fuel i pos).length →
      (chunkLoop c tokens fuel i pos).get? j
        = some (windowChunk c tokens (i + j * (c.chunkSize - c.overlapSize)) (pos + j)) := by
  induction fuel with
  | zero =>
    intro i pos j hj
    simp [chunkLoop] at hj
  | succ fuel ih =>
    intro i pos j hj
    rw [chunkLoop_succ] at hj ⊢
    by_cases hi : i < tokens.length
    · rw [if_pos hi] at hj ⊢
      by_cases he : (i + c.chunkSize) ⊓ tokens.length = tokens.length
      · rw [if_pos he] at hj ⊢
        simp only [List.length_singleton] at hj
        interval_cases j
        simp
      · rw [if_neg he] at hj ⊢
        cases j with
        | zero => simp
        | succ j =>
          simp only [List.length_cons, Nat.add_lt_add_iff_right] at hj
          have hrec := ih (i + (c.chunkSize - c.overlapSize)) (pos + 1) j hj
          have harith : i + (c.chunkSize - c.overlapSize)
              + j * (c.chunkSize - c.overlapSize)
              = i + (j + 1) * (c.chunkSize - c.overlapSize) := by ring
          have hpos : pos + 1 + j = pos + (j + 1) := by ring
          rw [List.get?_cons_succ, hrec, harith, hpos]
    · rw [if_neg hi] at hj
      simp at hj

theorem chunkLoop_stop (c : Chunker) (tokens : List Nat)
    (hstride : 0 < c.chunkSize - c.overlapSize) (fuel : Nat) :
    ∀ i pos, tokens.length - i ≤ fuel → i < tokens.length →
      chunkLoop c tokens fuel i pos ≠ [] ∧
      (∀ j, j + 1 < (chunkLoop c tokens fuel i pos).length →
        i + j * (c.chunkSize - c.overlapSize) + c.chunkSize < tokens.length) ∧
      tokens.length ≤ i + ((chunkLoop c tokens fuel i pos).length - 1)
        * (c.chunkSize - c.overlapSize) + c.chunkSize := by
  induction fuel with
  | zero =>
    intro i pos hfuel hi
    omega
  | succ fuel ih =>
    intro i pos hfuel hi
    rw [chunkLoop_succ, if_pos hi]
    split
    case isTrue he =>
      refine ⟨by simp, by simp, ?_⟩
      simp only [List.length_singleton]
      omega
    case isFalse he =>
      have hcs : i + c.chunkSize < tokens.length := by omega
      have hstride_le : c.chunkSize - c.overlapSize ≤ c.chunkSize := by omega
      obtain ⟨hne, hmid, hlast⟩ :=
        ih (i + (c.chunkSize - c.overlapSize)) (pos + 1) (by omega) (by omega)
      have hLpos : 0 <
          (chunkLoop c tokens fuel (i + (c.chunkSize - c.overlapSize)) (pos + 1)).length :=
        List.length_pos.mpr hne
      refine ⟨by simp, ?_, ?_⟩
      · intro j hj
        cases j with
        | zero => simpa using hcs
        | succ j =>
          simp only [List.length_cons, Nat.add_lt_add_iff_right] at hj
          have := hmid j hj
          have hmul : (j + 1) * (c.chunkSize - c.overlapSize)
              = j * (c.chunkSize - c.overlapSize) + (c.chunkSize - c.overlapSize) :=
            Nat.succ_mul _ _
          omega
      · simp only [List.length_cons, Nat.add_sub_cancel]
        set L := (chunkLoop c tokens fuel (i + (c.chunkSize - c.overlapSize)) (pos + 1)).length
        have hmul : L * (c.chunkSize - c.overlapSize)
            = (L - 1) * (c.chunkSize - c.overlapSize) + (c.chunkSize - c.overlapSize) := by
          have : L - 1 + 1 = L := Nat.succ_pred_eq_of_pos hLpos
          calc L * (c.chunkSize - c.overlapSize)
              = (L - 1 + 1) * (c.chunkSize - c.overlapSize) := by rw [this]
            _ = (L - 1) * (c.chunkSize - c.overlapSize) + (c.chunkSize - c.overlapSize) :=
                Nat.succ_mul _ _
        omega

/-- C7: validated chunker behavior.  Empty input yields no chunks; input of
at most chunk_size tokens yields one chunk carrying the original text at
position 0; longer input yields the windows at token offsets 0, stride,
2·stride, … (stride = chunk_size − overlap_size), each of at most
chunk_size tokens decoded back to text (windowChunk), with positions the
consecutive ordinals from 0, where every window before the last ends
strictly before the end of the token sequence and the last window reaches
it (the loop stops after the window that reaches the end); consequently a
51-token text with chunk_size 50 and overlap 0 yields exactly two chunks. -/
theorem c7_chunker_conformance (c : Chunker) (text : String)
    (hsize : 50 ≤ c.chunkSize) (hover : c.overlapSize < c.chunkSize) :
    (c.Chunk "" = []) ∧
    (text ≠ "" → (c.encode text).length ≤ c.chunkSize →
      c.Chunk text = [⟨generateChunkID text 0, "", text, 0, none⟩]) ∧
    (text ≠ "" → c.chunkSize < (c.encode text).length →
      c.Chunk text ≠ [] ∧
      (c.Chunk text).map (fun ck => ck.position) = List.range (c.Chunk text).length ∧
      (∀ j, j < (c.Chunk text).length →
        (c.Chunk text).get? j
          = some (windowChunk c (c.encode text) (j * (c.chunkSize - c.overlapSize)) j)) ∧
      (∀ j, j + 1 < (c.Chunk text).length →
        j * (c.chunkSize - c.overlapSize) + c.chunkSize < (c.encode text).length) ∧
      (c.encode text).length
        ≤ ((c.Chunk text).length - 1) * (c.chunkSize - c.overlapSize) + c.chunkSize) ∧
    (c.chunkSize = 50 → c.overlapSize = 0 → (c.encode text).length = 51 → text ≠ "" →
      (c.Chunk text).length = 2) := by
  have hstride : 0 < c.chunkSize - c.overlapSize := by omega
  have hlong : ∀ (ht : text ≠ "") (hgt : c.chunkSize < (c.encode text).length),
      c.Chunk text = chunkLoop c (c.encode text) (c.encode text).length 0 0 := by
    intro ht hgt
    rw [Chunk_eq c text ht, if_neg (by omega)]
  refine ⟨by simp [Chunker.Chunk], ?_, ?_, ?_⟩
  · intro ht hle
    rw [Chunk_eq c text ht, if_pos hle]
  · intro ht hgt
    rw [hlong ht hgt]
    have hn : 0 < (c.encode text).length := by omega
    obtain ⟨hne, hmid, hlast⟩ := chunkLoop_stop c (c.encode text) hstride
      (c.encode text).length 0 0 (by omega) hn
    refine ⟨hne, ?_, ?_, ?_, ?_⟩
    · rw [chunkLoop_positions, List.range_eq_range']
    · intro j hj
      simpa using chunkLoop_get c (c.encode text) (c.encode text).length 0 0 j hj
    · intro j hj
      simpa using hmid j hj
    · simpa using hlast
  · intro hcs hov h51 ht
    have hgt : c.chunkSize < (c.encode text).length := by omega
    rw [hlong ht hgt]
    have hn : 0 < (c.encode text).length := by omega
    obtain ⟨hne, hmid, hlast⟩ := chunkLoop_stop c (c.encode text) hstride
      (c.encode text).length 0 0 (by omega) hn
    have hL : 0 < (chunkLoop c (c.encode text) (c.encode text).length 0 0).length :=
      List.length_pos.mpr hne
    have h1 := hmid 1
    have e2 : ((chunkLoop c (c.encode text) (c.encode text).length 0 0).length - 1)
        * (c.chunkSize - c.overlapSize)
        = ((chunkLoop c (c.encode text) (c.encode text).length 0 0).length - 1) * 50 := by
      rw [hcs, hov]
    omega

/-- A chunk_size 50, overlap 0 chunker over the character tokenizer. -/
def c50Chunker : Chunker := ⟨50, 0, charTokens, charDetokens⟩

set_option maxRecDepth 40000 in
/-- C7 witness: the conformance theorem applied to a 51-token text under
chunk_size 50 and overlap 0 yields exactly two chunks. -/
theorem c7_witness :
    (c50Chunker.Chunk "aaaaaaaaaaaaaaaaaaaaaaaaaaaaaaaaaaaaaaaaaaaaaaaaaaa").length = 2 :=
  (c7_chunker_conformance c50Chunker "aaaaaaaaaaaaaaaaaaaaaaaaaaaaaaaaaaaaaaaaaaaaaaaaaaa"
    (by decide) (by decide)).2.2.2 rfl rfl (by decide) (by decide)

/-! ### Claim C1: the document hash is written before chunk processing -/

set_option maxRecDepth 40000 in
/-- C1 divergence witness at the failing input: a batch with one new
document doc1 whose embedding call fails.  The ingest reports the document
as failed and stores no chunk, yet the per-URI hash entry now holds the
document hash (it was written by the document store in Phase B step 1,
before chunking and embedding).  A later ingest of the same unchanged
document therefore classifies it as unchanged with zero processed chunks,
while its chunk set is still empty — out of sync with the document. -/
theorem c1_hash_written_despite_failure :
    ((AddDocumentBatch ascChunker failEmbedder true "t1"
        [⟨"doc1", "T", "C", none⟩] freshState).1.failedURIs
      = [("doc1",
          "failed to process chunks: failed to generate embeddings: connection refused")]) ∧
    (bget (AddDocumentBatch ascChunker failEmbedder true "t1"
        [⟨"doc1", "T", "C", none⟩] freshState).2.stor.hashes "doc1"
      = some (computeDocumentHash ⟨"doc1", "T", "C", none⟩)) ∧
    (GetChunksByDocument (AddDocumentBatch ascChunker failEmbedder true "t1"
        [⟨"doc1", "T", "C", none⟩] freshState).2.stor "doc1" = []) ∧
    ((AddDocumentBatch ascChunker okEmbedder true "t2"
        [⟨"doc1", "T", "C", none⟩]
        (AddDocumentBatch ascChunker failEmbedder true "t1"
          [⟨"doc1", "T", "C", none⟩] freshState).2).1
      = ⟨1, 0, 0, 1, 0, []⟩) := by
  refine ⟨by decide, by decide, by decide, by decide⟩

/-! ### Claim C2: delete_document leaves the chunk records behind -/

set_option maxRecDepth 40000 in
/-- C2 divergence witness: ingest one document d1 (storing one chunk), then
delete it.  The document record, hash entry, doc-to-chunks mapping and the
vector are all gone, but the chunk bucket is exactly what it was before the
delete: storage.DeleteDocument removes the doc-to-chunks mapping first, so
the subsequent DeleteChunksByDocument call finds no mapping and deletes no
chunk record. -/
theorem c2_chunk_records_survive_delete :
    (bget (DeleteDocumentImpl true
        ((AddDocumentBatch ascChunker okEmbedder true "t1"
          [⟨"d1", "T", "C", none⟩] freshState).2) "d1").stor.documents "d1" = none) ∧
    (bget (DeleteDocumentImpl true
        ((AddDocumentBatch ascChunker okEmbedder true "t1"
          [⟨"d1", "T", "C", none⟩] freshState).2) "d1").stor.hashes "d1" = none) ∧
    (bget (DeleteDocumentImpl true
        ((AddDocumentBatch ascChunker okEmbedder true "t1"
          [⟨"d1", "T", "C", none⟩] freshState).2) "d1").stor.docChunks "d1" = none) ∧
    ((DeleteDocumentImpl true
        ((AddDocumentBatch ascChunker okEmbedder true "t1"
          [⟨"d1", "T", "C", none⟩] freshState).2) "d1").hnsw.nodes = []) ∧
    ((DeleteDocumentImpl true
        ((AddDocumentBatch ascChunker okEmbedder true "t1"
          [⟨"d1", "T", "C", none⟩] freshState).2) "d1").stor.chunks
      = (AddDocumentBatch ascChunker okEmbedder true "t1"
          [⟨"d1", "T", "C", none⟩] freshState).2.stor.chunks) ∧
    (((AddDocumentBatch ascChunker okEmbedder true "t1"
        [⟨"d1", "T", "C", none⟩] freshState).2.stor.chunks.map
          fun p => p.2.documentURI) = ["d1"]) := by
  refine ⟨by decide, by decide, by decide, by decide, by decide, by decide⟩

/-! ### Claim C4: the metadata update at the end of batch ingest -/

set_option maxRecDepth 40000 in
/-- C4 counterexample: ingest document a, then separately ingest document b.
After the second ingest the document store lists two documents but the
metadata document_count is 1 — the code sets document_count to the number
of new plus updated documents of the current batch, not to the listed
document count. -/
theorem c4_counterexample :
    ((ListDocuments (AddDocumentBatch ascChunker okEmbedder true "t2"
        [⟨"b", "T", "C2", none⟩]
        (AddDocumentBatch ascChunker okEmbedder true "t1"
          [⟨"a", "T", "C1", none⟩] freshState).2).2.stor).length = 2) ∧
    ((AddDocumentBatch ascChunker okEmbedder true "t2"
        [⟨"b", "T", "C2", none⟩]
        (AddDocumentBatch ascChunker okEmbedder true "t1"
          [⟨"a", "T", "C1", none⟩] freshState).2).2.stor.metadata
      = some ⟨3, 1, 1, "t2"⟩) ∧
    ((1 : Nat) ≠ 2) := by
  refine ⟨by decide, by decide, by decide⟩

/-! ### Storage-field preservation through the ingest pipeline -/

theorem StoreChunk_hashes {α : Type} (s : Stor α) (c : SChunk α) :
    (StoreChunk s c).hashes = s.hashes := by
  unfold StoreChunk
  split <;> rfl

theorem StoreChunk_metadata {α : Type} (s : Stor α) (c : SChunk α) :
    (StoreChunk s c).metadata = s.metadata := by
  unfold StoreChunk
  split <;> rfl

theorem StoreDocument_hashes {α : Type} (s : Stor α) (d : SDocument) (h : d.hash ≠ "") :
    (StoreDocument s d).hashes = bput s.hashes d.uri d.hash := by
  unfold StoreDocument
  rw [if_pos h]

theorem StoreDocument_metadata {α : Type} (s : Stor α) (d : SDocument) :
    (StoreDocument s d).metadata = s.metadata := by
  unfold StoreDocument
  split <;> rfl

theorem DeleteChunksByDocument_hashes {α : Type} (s : Stor α) (uri : String) :
    (DeleteChunksByDocument s uri).hashes = s.hashes := by
  unfold DeleteChunksByDocument
  split <;> rfl

theorem DeleteChunksByDocument_metadata {α : Type} (s : Stor α) (uri : String) :
    (DeleteChunksByDocument s uri).metadata = s.metadata := by
  unfold DeleteChunksByDocument
  split <;> rfl

theorem processChunksLoop_stor {α : Type} (docURI : String) (metadata : Option String)
    (embeddings : List (List α)) :
    ∀ (chunks : List CChunk) (idx : Nat) (st : IdxState α),
      (processChunksLoop docURI metadata embeddings idx chunks st).2.stor.hashes
          = st.stor.hashes ∧
      (processChunksLoop docURI metadata embeddings idx chunks st).2.stor.metadata.isSome
          = st.stor.metadata.isSome
  | [], _, st => ⟨rfl, rfl⟩
  | chunk :: rest, idx, st => by
    unfold processChunksLoop
    cases hm : st.stor.metadata with
    | none => simp [GetNextHNSWId, hm]
    | some m =>
      simp only [GetNextHNSWId, hm]
      split
      case h_1 e h' hadd =>
        constructor
        · rw [StoreChunk_hashes]
        · rw [StoreChunk_metadata]
          simp [hm]
      case h_2 h' hadd =>
        obtain ⟨ih1, ih2⟩ := processChunksLoop_stor docURI metadata embeddings rest (idx + 1) _
        constructor
        · rw [ih1, StoreChunk_hashes]
        · rw [ih2, StoreChunk_metadata]
          simp [hm]

theorem processChunks_stor {α : Type} (emb : List String → Except String (List (List α)))
    (docURI : String) (chunks : List CChunk) (metadata : Option String) (st : IdxState α) :
    (processChunks emb docURI chunks metadata st).2.stor.hashes = st.stor.hashes ∧
    (processChunks emb docURI chunks metadata st).2.stor.metadata.isSome
        = st.stor.metadata.isSome := by
  unfold processChunks
  split
  · exact ⟨rfl, rfl⟩
  · exact processChunksLoop_stor docURI metadata _ chunks 0 st

/-- The resulting state of processDocument is the processChunks state over
the stored document and cleared chunks (the failure tag does not change it). -/
theorem processDocument_state {α : Type} (chk : Chunker)
    (emb : List String → Except String (List (List α))) (doc : Document)
    (st : IdxState α) :
    (processDocument chk emb doc st).2
      = (processChunks emb doc.uri (chk.ChunkDocument doc.uri doc.content) doc.metadata
          ⟨DeleteChunksByDocument (StoreDocument st.stor
            ⟨doc.uri, doc.title, doc.content, computeDocumentHash doc, doc.metadata⟩)
            doc.uri, st.hnsw⟩).2 := by
  show (match processChunks emb doc.uri (chk.ChunkDocument doc.uri doc.content)
      doc.metadata ⟨DeleteChunksByDocument (StoreDocument st.stor
        ⟨doc.uri, doc.title, doc.content, computeDocumentHash doc, doc.metadata⟩)
        doc.uri, st.hnsw⟩ with
    | (some e, st') => (some ("failed to process chunks: " ++ e), st')
    | (none, st') => (none, st')).2 = _
  rcases processChunks emb doc.uri (chk.ChunkDocument doc.uri doc.content)
      doc.metadata ⟨DeleteChunksByDocument (StoreDocument st.stor
        ⟨doc.uri, doc.title, doc.content, computeDocumentHash doc, doc.metadata⟩)
        doc.uri, st.hnsw⟩ with ⟨fst, st'⟩
  cases fst <;> rfl

theorem processDocument_stor {α : Type} (chk : Chunker)
    (emb : List String → Except String (List (List α))) (doc : Document)
    (st : IdxState α) :
    (processDocument chk emb doc st).2.stor.hashes
        = bput st.stor.hashes doc.uri (computeDocumentHash doc) ∧
    (processDocument chk emb doc st).2.stor.metadata.isSome
        = st.stor.metadata.isSome := by
  have hsd : (⟨doc.uri, doc.title, doc.content, computeDocumentHash doc,
      doc.metadata⟩ : SDocument).hash ≠ "" := computeDocumentHash_ne_empty doc
  rw [processDocument_state]
  constructor
  · rw [(processChunks_stor emb doc.uri (chk.ChunkDocument doc.uri doc.content)
      doc.metadata _).1]
    dsimp only
    rw [DeleteChunksByDocument_hashes, StoreDocument_hashes _ _ hsd]
  · rw [(processChunks_stor emb doc.uri (chk.ChunkDocument doc.uri doc.content)
      doc.metadata _).2]
    dsimp only
    rw [DeleteChunksByDocument_metadata, StoreDocument_metadata]

/-- Both arms of the Phase 2 match pass the processDocument output state to
the recursive call, so the final state ignores the failure bookkeeping. -/
theorem phase2_cons_state {α : Type} (chk : Chunker)
    (emb : List String → Except String (List (List α))) (doc : Document)
    (rest : List Document) (st : IdxState α) :
    (phase2 chk emb (doc :: rest) st).2.2
      = (phase2 chk emb rest (processDocument chk emb doc st).2).2.2 := by
  unfold phase2
  rcases hp : processDocument chk emb doc st with ⟨fst, st'⟩
  cases fst <;> simp <;> rw [← phase2.eq_def]

theorem phase2_stor {α : Type} (chk : Chunker)
    (emb : List String → Except String (List (List α))) :
    ∀ (l : List Document) (st : IdxState α),
      ((phase2 chk emb l st).2.2.stor.metadata.isSome = st.stor.metadata.isSome) ∧
      (∀ u, u ∉ l.map (fun d => d.uri) →
        bget (phase2 chk emb l st).2.2.stor.hashes u = bget st.stor.hashes u) ∧
      ((l.map (fun d => d.uri)).Nodup → ∀ d ∈ l,
        bget (phase2 chk emb l st).2.2.stor.hashes d.uri
          = some (computeDocumentHash d))
  | [], st => ⟨rfl, fun _ _ => rfl, fun _ d hd => absurd hd (by simp)⟩
  | doc :: rest, st => by
    obtain ⟨hpd1, hpd2⟩ := processDocument_stor chk emb doc st
    obtain ⟨ih1, ih2, ih3⟩ := phase2_stor chk emb rest (processDocument chk emb doc st).2
    rw [phase2_cons_state]
    refine ⟨by rw [ih1, hpd2], ?_, ?_⟩
    · intro u hu
      rw [List.map_cons, List.mem_cons] at hu
      push_neg at hu
      rw [ih2 u hu.2, hpd1, bget_bput_ne _ _ _ _ hu.1]
    · intro hnodup d hd
      rw [List.map_cons, List.nodup_cons] at hnodup
      rcases List.mem_cons.mp hd with hd | hd
      · subst hd
        have hnot : d.uri ∉ rest.map (fun d => d.uri) := hnodup.1
        rw [ih2 d.uri hnot, hpd1, bget_bput_self]
      · exact ih3 hnodup.2 d hd

/-! ### Triage lemmas -/

theorem GetDocumentHash_ok_iff {α : Type} (s : Stor α) (uri h : String) :
    GetDocumentHash s uri = .ok h ↔ bget s.hashes uri = some h := by
  unfold GetDocumentHash
  cases hb : bget s.hashes uri <;> simp

theorem triage_cons {α : Type} (s : Stor α) (doc : Document) (rest : List Document) :
    triage s (doc :: rest) =
      match GetDocumentHash s doc.uri with
      | .error _ => ⟨(triage s rest).newCount + 1, (triage s rest).updatedCount,
          (triage s rest).unchangedCount, doc :: (triage s rest).toProcess⟩
      | .ok existing =>
        if existing ≠ computeDocumentHash doc then
          ⟨(triage s rest).newCount, (triage s rest).updatedCount + 1,
            (triage s rest).unchangedCount, doc :: (triage s rest).toProcess⟩
        else
          ⟨(triage s rest).newCount, (triage s rest).updatedCount,
            (triage s rest).unchangedCount + 1, (triage s rest).toProcess⟩ := rfl

theorem triage_toProcess_sublist {α : Type} (s : Stor α) :
    ∀ docs : List Document, (triage s docs).toProcess.Sublist docs
  | [] => by simp [triage]
  | doc :: rest => by
    rw [triage_cons]
    cases hg : GetDocumentHash s doc.uri with
    | error e => exact (triage_toProcess_sublist s rest).cons₂ doc
    | ok existing =>
      dsimp only
      by_cases hne : existing ≠ computeDocumentHash doc
      · rw [if_pos hne]
        exact (triage_toProcess_sublist s rest).cons₂ doc
      · rw [if_neg hne]
        exact (triage_toProcess_sublist s rest).cons doc

theorem triage_not_enqueued {α : Type} (s : Stor α) :
    ∀ (docs : List Document) (d : Document), d ∈ docs →
      d ∉ (triage s docs).toProcess →
      bget s.hashes d.uri = some (computeDocumentHash d)
  | [], d, hd, _ => absurd hd (by simp)
  | doc :: rest, d, hd, hnp => by
    rw [triage_cons] at hnp
    rcases List.mem_cons.mp hd with hdd | hdd
    · subst hdd
      cases hg : GetDocumentHash s d.uri with
      | error e =>
        rw [hg] at hnp
        exact absurd (List.mem_cons_self d _) hnp
      | ok existing =>
        rw [hg] at hnp
        dsimp only at hnp
        by_cases hne : existing ≠ computeDocumentHash d
        · rw [if_pos hne] at hnp
          exact absurd (List.mem_cons_self d _) hnp
        · push_neg at hne
          subst hne
          exact (GetDocumentHash_ok_iff s d.uri _).mp hg
    · cases hg : GetDocumentHash s doc.uri with
      | error e =>
        rw [hg] at hnp
        have : d ∉ (triage s rest).toProcess := fun hc => hnp (List.mem_cons_of_mem _ hc)
        exact triage_not_enqueued s rest d hdd this
      | ok existing =>
        rw [hg] at hnp
        dsimp only at hnp
        by_cases hne : existing ≠ computeDocumentHash doc
        · rw [if_pos hne] at hnp
          have : d ∉ (triage s rest).toProcess := fun hc => hnp (List.mem_cons_of_mem _ hc)
          exact triage_not_enqueued s rest d hdd this
        · rw [if_neg hne] at hnp
          exact triage_not_enqueued s rest d hdd hnp

theorem triage_unchanged {α : Type} (s : Stor α) :
    ∀ docs : List Document,
      (∀ d ∈ docs, bget s.hashes d.uri = some (computeDocumentHash d)) →
      triage s docs = ⟨0, 0, docs.length, []⟩
  | [], _ => rfl
  | doc :: rest, h => by
    rw [triage_cons]
    have hg : GetDocumentHash s doc.uri = .ok (computeDocumentHash doc) :=
      (GetDocumentHash_ok_iff s doc.uri _).mpr (h doc (by simp))
    rw [hg, triage_unchanged s rest (fun d hd => h d (List.mem_cons_of_mem _ hd))]
    simp

/-! ### Finalization lemmas -/

theorem finalizeMetadata_hashes {α : Type} (now : String) (dc cc : Nat) (st : IdxState α) :
    (finalizeMetadata now dc cc st).stor.hashes = st.stor.hashes := by
  unfold finalizeMetadata
  split <;> rfl

theorem finalizeMetadata_metadata {α : Type} (now : String) (dc cc : Nat)
    (st : IdxState α) (m : IndexMetadata) (hmm : st.stor.metadata = some m) :
    (finalizeMetadata now dc cc st).stor.metadata = some ⟨m.nextHNSWId, dc, cc, now⟩ := by
  have hg : GetIndexMetadata st.stor = .ok m := by
    unfold GetIndexMetadata
    rw [hmm]
  unfold finalizeMetadata
  rw [hg]
  rfl

theorem ifSave_stor {α : Type} (autoSave : Bool) (s : IdxState α) :
    (if autoSave then (⟨s.stor, s.hnsw.Save⟩ : IdxState α) else s).stor = s.stor := by
  cases autoSave <;> simp

/-! ### Claim C4: the metadata written at the end of a processing batch -/

/-- C4 amended: when a batch enqueues at least one document and the
metadata read succeeds, the metadata written at the end of the ingest has
document_count = new_count + updated_count of this batch (not the listed
document count), chunk_count = the processed chunk total of this batch, and
last_updated = the supplied current timestamp. -/
theorem c4_metadata_update {α : Type} (chk : Chunker)
    (emb : List String → Except String (List (List α))) (autoSave : Bool)
    (now : String) (docs : List Document) (st : IdxState α)
    (hne : ¬ (triage st.stor docs).toProcess.isEmpty)
    (hm : st.stor.metadata.isSome = true) :
    ∃ next, (AddDocumentBatch chk emb autoSave now docs st).2.stor.metadata
      = some ⟨next,
          (AddDocumentBatch chk emb autoSave now docs st).1.newDocuments
            + (AddDocumentBatch chk emb autoSave now docs st).1.updatedDocuments,
          (AddDocumentBatch chk emb autoSave now docs st).1.processedChunks, now⟩ := by
  have hiso : (phase2 chk emb (triage st.stor docs).toProcess st).2.2.stor.metadata.isSome
      = true := by
    rw [(phase2_stor chk emb (triage st.stor docs).toProcess st).1, hm]
  obtain ⟨m, hmm⟩ := Option.isSome_iff_exists.mp hiso
  refine ⟨m.nextHNSWId, ?_⟩
  unfold AddDocumentBatch
  dsimp only
  rw [if_neg hne]
  dsimp only
  have hst2 : (if autoSave then
      (⟨(phase2 chk emb (triage st.stor docs).toProcess st).2.2.stor,
        (phase2 chk emb (triage st.stor docs).toProcess st).2.2.hnsw.Save⟩ : IdxState α)
      else (phase2 chk emb (triage st.stor docs).toProcess st).2.2).stor.metadata
      = some m := by
    cases autoSave <;> simpa using hmm
  rw [finalizeMetadata_metadata _ _ _ _ m hst2]

/-- C4 witness: the amended theorem applied to one new document on a fresh
index. -/
theorem c4_witness :
    ∃ next, (AddDocumentBatch ascChunker okEmbedder true "t1"
        [⟨"a", "T", "C1", none⟩] freshState).2.stor.metadata
      = some ⟨next,
          (AddDocumentBatch ascChunker okEmbedder true "t1"
            [⟨"a", "T", "C1", none⟩] freshState).1.newDocuments
            + (AddDocumentBatch ascChunker okEmbedder true "t1"
                [⟨"a", "T", "C1", none⟩] freshState).1.updatedDocuments,
          (AddDocumentBatch ascChunker okEmbedder true "t1"
            [⟨"a", "T", "C1", none⟩] freshState).1.processedChunks, "t1"⟩ :=
  c4_metadata_update ascChunker okEmbedder true "t1" [⟨"a", "T", "C1", none⟩]
    freshState (by decide) rfl

/-! ### Claim C6: re-ingesting an unchanged batch -/

theorem ingest_hashes {α : Type} (chk : Chunker)
    (emb : List String → Except String (List (List α))) (autoSave : Bool)
    (now : String) (docs : List Document) (st : IdxState α)
    (hnodup : (docs.map (fun d => d.uri)).Nodup) :
    ∀ d ∈ docs, bget (AddDocumentBatch chk emb autoSave now docs st).2.stor.hashes d.uri
      = some (computeDocumentHash d) := by
  intro d hd
  unfold AddDocumentBatch
  dsimp only
  by_cases hemp : (triage st.stor docs).toProcess.isEmpty
  · rw [if_pos hemp]
    have hnil : (triage st.stor docs).toProcess = [] := by
      simpa using hemp
    exact triage_not_enqueued st.stor docs d hd (by rw [hnil]; simp)
  · rw [if_neg hemp]
    dsimp only
    rw [finalizeMetadata_hashes, ifSave_stor]
    obtain ⟨hiso, hpres, hset⟩ := phase2_stor chk emb (triage st.stor docs).toProcess st
    by_cases hmem : d ∈ (triage st.stor docs).toProcess
    · have hsub : ((triage st.stor docs).toProcess.map (fun d => d.uri)).Sublist
          (docs.map (fun d => d.uri)) :=
        (triage_toProcess_sublist st.stor docs).map _
      exact hset (hnodup.sublist hsub) d hmem
    · have hnotin : d.uri ∉ (triage st.stor docs).toProcess.map (fun d => d.uri) := by
        intro hin
        obtain ⟨d', hd', hud⟩ := List.mem_map.mp hin
        have hd'docs : d' ∈ docs := (triage_toProcess_sublist st.stor docs).subset hd'
        have heq : d' = d := List.inj_on_of_nodup_map hnodup hd'docs hd hud
        subst heq
        exact hmem hd'
      rw [hpres d.uri hnotin]
      exact triage_not_enqueued st.stor docs d hd hmem

theorem AddDocumentBatch_all_unchanged {α : Type} (chk : Chunker)
    (emb : List String → Except String (List (List α))) (autoSave : Bool)
    (now : String) (docs : List Document) (st : IdxState α)
    (h : triage st.stor docs = ⟨0, 0, docs.length, []⟩) :
    AddDocumentBatch chk emb autoSave now docs st
      = (⟨docs.length, 0, 0, docs.length, 0, []⟩, st) := by
  unfold AddDocumentBatch
  dsimp only
  rw [h]
  rfl

/-- C6: after an ingest of a batch with pairwise-distinct URIs that reports
no failed documents, re-ingesting the same unchanged batch (force update is
not available and hence off) classifies every document unchanged: the
second BatchResult has new_count = 0, updated_count = 0, unchanged_count =
the batch size and processed_chunks = 0. -/
theorem c6_reingest_unchanged {α : Type} (chk : Chunker)
    (emb : List String → Except String (List (List α))) (autoSave : Bool)
    (now1 now2 : String) (docs : List Document) (st : IdxState α)
    (hnodup : (docs.map (fun d => d.uri)).Nodup)
    (hok : (AddDocumentBatch chk emb autoSave now1 docs st).1.failedURIs = []) :
    (AddDocumentBatch chk emb autoSave now2 docs
        (AddDocumentBatch chk emb autoSave now1 docs st).2).1.newDocuments = 0 ∧
    (AddDocumentBatch chk emb autoSave now2 docs
        (AddDocumentBatch chk emb autoSave now1 docs st).2).1.updatedDocuments = 0 ∧
    (AddDocumentBatch chk emb autoSave now2 docs
        (AddDocumentBatch chk emb autoSave now1 docs st).2).1.unchangedDocuments
      = docs.length ∧
    (AddDocumentBatch chk emb autoSave now2 docs
        (AddDocumentBatch chk emb autoSave now1 docs st).2).1.processedChunks = 0 := by
  have hh := ingest_hashes chk emb autoSave now1 docs st hnodup
  have ht := triage_unchanged (AddDocumentBatch chk emb autoSave now1 docs st).2.stor docs hh
  rw [AddDocumentBatch_all_unchanged chk emb autoSave now2 docs _ ht]
  exact ⟨rfl, rfl, rfl, rfl⟩

set_option maxRecDepth 40000 in
/-- C6 witness: one document ingested twice on a fresh index. -/
theorem c6_witness :
    (AddDocumentBatch ascChunker okEmbedder true "t2" [⟨"d1", "T", "C", none⟩]
        (AddDocumentBatch ascChunker okEmbedder true "t1" [⟨"d1", "T", "C", none⟩]
          freshState).2).1.newDocuments = 0 ∧
    (AddDocumentBatch ascChunker okEmbedder true "t2" [⟨"d1", "T", "C", none⟩]
        (AddDocumentBatch ascChunker okEmbedder true "t1" [⟨"d1", "T", "C", none⟩]
          freshState).2).1.updatedDocuments = 0 ∧
    (AddDocumentBatch ascChunker okEmbedder true "t2" [⟨"d1", "T", "C", none⟩]
        (AddDocumentBatch ascChunker okEmbedder true "t1" [⟨"d1", "T", "C", none⟩]
          freshState).2).1.unchangedDocuments
      = ([⟨"d1", "T", "C", none⟩] : List Document).length ∧
    (AddDocumentBatch ascChunker okEmbedder true "t2" [⟨"d1", "T", "C", none⟩]
        (AddDocumentBatch ascChunker okEmbedder true "t1" [⟨"d1", "T", "C", none⟩]
          freshState).2).1.processedChunks = 0 :=
  c6_reingest_unchanged ascChunker okEmbedder true "t1" "t2" [⟨"d1", "T", "C", none⟩]
    freshState (by decide) (by decide)

/-! ### Claim C10: search silently drops unresolvable hits -/

theorem resolveResults_eq_filterMap {α β : Type} (indexName : String) (s : Stor α) :
    ∀ rs : List (Nat × β),
      resolveResults indexName s rs = rs.filterMap fun p =>
        (findChunkAndDocument s p.1).map fun cd =>
          ⟨⟨cd.2.uri, cd.2.title, cd.2.content, cd.2.metadata⟩, p.2, cd.1.id, cd.1.text,
            indexName⟩
  | [] => rfl
  | (id, score) :: rest => by
    rw [List.filterMap_cons]
    unfold resolveResults
    cases hf : findChunkAndDocument s id with
    | none => simpa [hf] using resolveResults_eq_filterMap indexName s rest
    | some cd => simpa [hf] using resolveResults_eq_filterMap indexName s rest

/-- C10: when the query embedding and the wrapper k-NN search succeed,
coordinator search returns ok (never an error) with the neighbor list
converted by filterMap over the chunk resolution: a neighbor whose vector
id does not resolve is silently dropped, every resolvable neighbor is kept,
the relative (ANN) order of the kept entries is preserved, and the result
may therefore be shorter than the neighbor list. -/
theorem c10_search_drops_unresolved {α β : Type} (indexName : String) (st : IdxState α)
    (embedding : List α) (annSearch : List α → Except String (List (Nat × β)))
    (rs : List (Nat × β)) (hann : annSearch embedding = .ok rs) :
    SearchImpl indexName st (.ok embedding) annSearch
      = .ok (resolveResults indexName st.stor rs) ∧
    resolveResults indexName st.stor rs = rs.filterMap (fun p =>
      (findChunkAndDocument st.stor p.1).map fun cd =>
        ⟨⟨cd.2.uri, cd.2.title, cd.2.content, cd.2.metadata⟩, p.2, cd.1.id, cd.1.text,
          indexName⟩) ∧
    (resolveResults indexName st.stor rs).length ≤ rs.length ∧
    ∀ p ∈ rs, ∀ cd, findChunkAndDocument st.stor p.1 = some cd →
      (⟨⟨cd.2.uri, cd.2.title, cd.2.content, cd.2.metadata⟩, p.2, cd.1.id, cd.1.text,
        indexName⟩ : SearchResult α β) ∈ resolveResults indexName st.stor rs := by
  refine ⟨?_, resolveResults_eq_filterMap indexName st.stor rs, ?_, ?_⟩
  · simp only [SearchImpl]
    rw [hann]
  · rw [resolveResults_eq_filterMap]
    exact List.length_filterMap_le _ _
  · intro p hp cd hcd
    rw [resolveResults_eq_filterMap]
    exact List.mem_filterMap.mpr ⟨p, hp, by rw [hcd]; rfl⟩

/-- A concrete store for the C10 witness: one document d1 with one chunk c1
under vector id 1; vector id 2 resolves to nothing. -/
def c10Stor : Stor Unit :=
  ⟨[("d1", ⟨"d1", "T", "C", "h", none⟩)],
   [("c1", ⟨"c1", 1, "d1", "x", [()], 0, none⟩)],
   [("d1", ["c1"])],
   [("d1", "h")],
   some ⟨2, 1, 1, "t"⟩⟩

set_option maxRecDepth 40000 in
/-- C10 witness: with neighbors (1, score 7) and (2, score 9), search
succeeds and returns only the resolved first hit, in ANN order. -/
theorem c10_witness :
    ((fun _ => .ok [(1, 7), (2, 9)]) ([] : List Unit)
        = Except.ok (ε := String) [((1 : Nat), (7 : Nat)), (2, 9)]) ∧
    SearchImpl "idx" (⟨c10Stor, ⟨1, [(1, [()])], false⟩⟩ : IdxState Unit) (.ok [])
        (fun _ => .ok [(1, 7), (2, 9)])
      = .ok (resolveResults "idx" c10Stor [(1, 7), (2, 9)]) ∧
    resolveResults "idx" c10Stor [(1, 7), (2, 9)]
      = [⟨⟨"d1", "T", "C", none⟩, 7, "c1", "x", "idx"⟩] :=
  ⟨rfl,
   (c10_search_drops_unresolved "idx" ⟨c10Stor, ⟨1, [(1, [()])], false⟩⟩ []
      (fun _ => .ok [(1, 7), (2, 9)]) [(1, 7), (2, 9)] rfl).1,
   by decide⟩

end HnswIndex
